import Mathlib

/-
Verification development for the dendrocat MasterCatalog core
(src/dendrocat/mastercatalog.py).

The embedding models:
  * pixel values as an inductive type `PVal` covering NaN, the two
    infinities and finite (rational) values, matching IEEE special-value
    propagation at the granularity the code observes (numpy isnan, max,
    median, sum over a positivity filter, division by ppbeam);
  * the per-row pixel set handed back by `RadioSource.get_pixels` as
    either a sizable one-dimensional array or an unsized numpy scalar
    (a single-pixel aperture);
  * an astropy masked table as a list of named columns, each carrying
    homogeneous data (string or numeric) plus a boolean mask;
  * the MasterCatalog operations `photometer`, `add_sources`, `grab`
    and the row-filtering stage of `ffplot`.

External collaborators (the noise estimator `utils.rms` and the pixel
extraction `RadioSource.get_pixels` / `_make_cutouts`) are modelled as
function parameters, following the interface contracts of the code.
Fallible Python code (uncaught exceptions) is modelled with
`Except Unit`.
-/

namespace Dendrocat

/-! ### Pixel values -/

/-- A floating-point value as the code distinguishes them: NaN, plus or
minus infinity, or a finite (rational) number. -/
inductive PVal where
  | nan
  | inf
  | ninf
  | num (q : ℚ)
deriving DecidableEq

/-- numpy `isnan`. -/
def PVal.isNaN : PVal → Bool
  | .nan => true
  | _ => false

/-- numpy `isfinite`: true exactly on finite numbers. -/
def PVal.isFinite : PVal → Bool
  | .num _ => true
  | _ => false

/-- The comparison `v > 0.` as numpy evaluates it: false for NaN
(IEEE comparisons with NaN are false), true for +inf, false for -inf. -/
def PVal.gtZero : PVal → Bool
  | .nan => false
  | .inf => true
  | .ninf => false
  | .num q => decide (0 < q)

/-- IEEE addition at the granularity of `PVal`: NaN propagates, and
inf + (-inf) is NaN. -/
def PVal.add : PVal → PVal → PVal
  | .nan, _ => .nan
  | _, .nan => .nan
  | .inf, .ninf => .nan
  | .ninf, .inf => .nan
  | .inf, _ => .inf
  | _, .inf => .inf
  | .ninf, _ => .ninf
  | _, .ninf => .ninf
  | .num a, .num b => .num (a + b)

/-- Division by the (positive) scalar `ppbeam`. -/
def PVal.divQ : PVal → ℚ → PVal
  | .nan, _ => .nan
  | .inf, _ => .inf
  | .ninf, _ => .ninf
  | .num a, q => .num (a / q)

/-- Halving, used by `numpy.median` for even-length arrays. -/
def PVal.half : PVal → PVal
  | .nan => .nan
  | .inf => .inf
  | .ninf => .ninf
  | .num a => .num (a / 2)

/-- A total comparison used to sort NaN-free pixel arrays:
-inf below every finite number, +inf above.  (NaN is ordered first; the
sort is only ever applied after a NaN check.) -/
def PVal.leB : PVal → PVal → Bool
  | .nan, _ => true
  | _, .nan => false
  | .ninf, _ => true
  | _, .ninf => false
  | _, .inf => true
  | .inf, _ => false
  | .num a, .num b => decide (a ≤ b)

/-- `numpy.sum`: fold of IEEE addition starting from 0. -/
def psum (l : List PVal) : PVal := l.foldl PVal.add (.num 0)

/-- `numpy.max` on a non-empty array: NaN propagates, otherwise the
largest element. -/
def pmax (l : List PVal) : PVal :=
  if l.any PVal.isNaN then .nan
  else l.foldl (fun a b => if PVal.leB a b then b else a) .ninf

/-- Insertion into a list sorted by `PVal.leB`. -/
def pinsert (v : PVal) : List PVal → List PVal
  | [] => [v]
  | w :: ws => if PVal.leB v w then v :: w :: ws else w :: pinsert v ws

/-- Insertion sort by `PVal.leB`. -/
def psort (l : List PVal) : List PVal := l.foldr pinsert []

/-- `numpy.median`: NaN if any element is NaN (numpy checks the top of
the partition), the middle element of the sorted array for odd length,
the mean of the two middle elements for even length, and NaN on an
empty array. -/
def pmedian (l : List PVal) : PVal :=
  if l.any PVal.isNaN then .nan
  else
    match l with
    | [] => .nan
    | _ :: _ =>
      let s := psort l
      if l.length % 2 = 1 then s.getD (l.length / 2) .nan
      else ((s.getD (l.length / 2 - 1) .nan).add (s.getD (l.length / 2) .nan)).half

/-! ### Pixel sets and the per-row statistics of `photometer`
(mastercatalog.py lines 128-163) -/

/-- The per-row object returned by `get_pixels`: a sizable
one-dimensional array, or an unsized numpy scalar for a single-pixel
aperture. -/
inductive PixSet where
  | arr (l : List PVal)
  | scalar (v : PVal)

/-- Line 130: `peak_data[j] = np.max(pix_in_aperture[j])`.  `np.max` of
an empty array raises ValueError (uncaught); of a scalar it returns the
scalar itself. -/
def peakStat : PixSet → Except Unit PVal
  | .arr [] => .error ()
  | .arr l => .ok (pmax l)
  | .scalar v => .ok v

/-- Lines 136-140: the strictly-positive pixels are summed and divided
by `ppbeam`; indexing an unsized scalar raises TypeError, which the code
catches and converts to NaN. -/
def sumStat (ppbeam : ℚ) : PixSet → PVal
  | .arr l => (psum (l.filter PVal.gtZero)).divQ ppbeam
  | .scalar _ => .nan

/-- Line 152: `median_data[j] = np.median(pix_in_aperture[j])`.
`np.median` of a scalar is the scalar. -/
def medianStat : PixSet → PVal
  | .arr l => pmedian l
  | .scalar v => v

/-- `np.isnan(pix).any()` on a pixel set. -/
def hasNaNPix : PixSet → Bool
  | .arr l => l.any PVal.isNaN
  | .scalar v => v.isNaN

/-- Lines 157-161: NaN when any pixel is NaN, otherwise
`len(pix_in_aperture[j])`.  `len` of an unsized scalar raises an
uncaught TypeError. -/
def npixStat : PixSet → Except Unit PVal
  | .arr l => if l.any PVal.isNaN then .ok .nan else .ok (.num l.length)
  | .scalar v => if v.isNaN then .ok .nan else .error ()

/-! ### Masked tables

An astropy masked table: an ordered list of named columns.  Each column
has homogeneous data - a string column or a numeric column - and a
boolean mask (`true` = the cell is masked/null). -/

/-- The data payload of one column. -/
inductive ColData where
  | strD (l : List String)
  | numD (l : List PVal)
deriving DecidableEq

/-- The dtype kind of a column, used by `vstack` to decide whether two
same-named columns can be concatenated. -/
inductive CKind where
  | strK
  | numK
deriving DecidableEq

def ColData.kind : ColData → CKind
  | .strD _ => .strK
  | .numD _ => .numK

def ColData.dataLen : ColData → Nat
  | .strD l => l.length
  | .numD l => l.length

/-- One table column: a name, the data and the mask. -/
structure Col where
  name : String
  data : ColData
  mask : List Bool
deriving DecidableEq

abbrev Table := List Col

def colNames (t : Table) : List String := t.map Col.name

/-- Number of rows, read off the first column (`len(table)`). -/
def nrows : Table → Nat
  | [] => 0
  | c :: _ => c.data.dataLen

/-- Every column holds `n` data cells and `n` mask cells. -/
def TableWF (t : Table) (n : Nat) : Prop :=
  ∀ c ∈ t, c.data.dataLen = n ∧ c.mask.length = n

instance (t : Table) (n : Nat) : Decidable (TableWF t n) := by
  unfold TableWF; infer_instance

/-- First column with the given name (astropy column access by name). -/
def lookupCol : Table → String → Option Col
  | [], _ => none
  | c :: cs, nm => if c.name = nm then some c else lookupCol cs nm

/-- The value stored in a numeric column at row `i` (ignoring the mask,
as `list(column)` exposes the stored data). -/
def numValAt (t : Table) (nm : String) (i : Nat) : Option PVal :=
  (lookupCol t nm).bind fun c =>
    match c.data with
    | .numD l => l.get? i
    | .strD _ => none

/-- The value stored in a string column at row `i`. -/
def strValAt (t : Table) (nm : String) (i : Nat) : Option String :=
  (lookupCol t nm).bind fun c =>
    match c.data with
    | .strD l => l.get? i
    | .numD _ => none

/-- The mask of column `nm` at row `i` (`false` when out of range or
the column is absent; those cases are excluded by hypotheses where they
matter). -/
def colMaskAt (t : Table) (nm : String) (i : Nat) : Bool :=
  ((lookupCol t nm).map (fun c => c.mask.getD i false)).getD false

/-- Take the sub-table of the listed rows, in the listed order
(`table[indices]`). -/
def selData : ColData → List Nat → ColData
  | .strD l, idxs => .strD (idxs.map (fun i => l.getD i ""))
  | .numD l, idxs => .numD (idxs.map (fun i => l.getD i .nan))

def selectRows (t : Table) (idxs : List Nat) : Table :=
  t.map (fun c => ⟨c.name, selData c.data idxs, idxs.map (fun i => c.mask.getD i false)⟩)

/-! ### Column removal, addition and the remask pass
(mastercatalog.py lines 165-184) -/

/-- `Table.remove_columns` with every listed name present: drop them. -/
def removeAll (ns : List String) (t : Table) : Table :=
  t.filter (fun c => decide (c.name ∉ ns))

/-- Lines 165-168: `remove_columns(names)` inside `try/except KeyError`.
astropy validates all names against the table before popping any, so a
missing name leaves the table unchanged (the KeyError is swallowed). -/
def removeColsCaught (ns : List String) (t : Table) : Table :=
  if ∀ n ∈ ns, n ∈ colNames t then removeAll ns t else t

/-- `add_column`: appending a column whose name already exists raises
ValueError (uncaught). -/
def addColsE : Table → List Col → Except Unit Table
  | t, [] => .ok t
  | t, c :: cs => if c.name ∈ colNames t then .error () else addColsE (t ++ [c]) cs

/-- Lines 178-184, for one column: `np.isnan(list(column))` raises
TypeError on a string column (caught: the column is skipped); on a
numeric column the NaN cells are marked masked.  Stored data never
changes, and masking is monotone, so already-masked cells stay masked.
Note `np.isnan` is used, not `np.isfinite`: infinities are not caught. -/
def remaskCol (c : Col) : Col :=
  match c.data with
  | .strD _ => c
  | .numD vs => ⟨c.name, c.data, List.zipWith (fun b v => b || v.isNaN) c.mask vs⟩

/-- The table-wide remask pass (`for col in self.catalog.colnames`). -/
def remaskTable (t : Table) : Table := t.map remaskCol

/-- A fresh `MaskedColumn(data=vs, name=nm)`: nothing masked yet. -/
def mkNumCol (nm : String) (vs : List PVal) : Col :=
  ⟨nm, .numD vs, List.replicate vs.length false⟩

/-! ### The photometer algorithm (mastercatalog.py lines 85-184) -/

/-- Effectful map for the per-row statistic loops: the first row that
raises aborts the whole call. -/
def mapME (f : PixSet → Except Unit PVal) : List PixSet → Except Unit (List PVal)
  | [] => .ok []
  | p :: ps => (f p).bind fun v => (mapME f ps).bind fun vs => .ok (v :: vs)

/-- Effectful left fold for the aperture and radio-source loops. -/
def foldME (f : Table → α → Except Unit Table) : Table → List α → Except Unit Table
  | t, [] => .ok t
  | t, a :: as => (f t a).bind fun t2 => foldME f t2 as

/-- Lines 120-126: the five derived column names
`{freq_id}_{aperture_name}_{stat}`. -/
def statNames (fr ap : String) : List String :=
  [fr ++ "_" ++ ap ++ "_peak", fr ++ "_" ++ ap ++ "_sum", fr ++ "_" ++ ap ++ "_rms",
   fr ++ "_" ++ ap ++ "_median", fr ++ "_" ++ ap ++ "_npix"]

/-- The five freshly built `MaskedColumn`s, in the order they are added
(lines 170-176). -/
def statCols (fr ap : String) (pp : ℚ) (rmsF : PixSet → PVal) (pix : List PixSet)
    (peaks npixs : List PVal) : List Col :=
  [mkNumCol (fr ++ "_" ++ ap ++ "_peak") peaks,
   mkNumCol (fr ++ "_" ++ ap ++ "_sum") (pix.map (sumStat pp)),
   mkNumCol (fr ++ "_" ++ ap ++ "_rms") (pix.map rmsF),
   mkNumCol (fr ++ "_" ++ ap ++ "_median") (pix.map medianStat),
   mkNumCol (fr ++ "_" ++ ap ++ "_npix") npixs]

/-- The body of `photometer` for one (radio-source, aperture) pair on
the default (full-table) catalog: compute the five statistic arrays from
the extracted pixel sets, remove any existing columns with the same five
names (KeyError swallowed), append the five fresh columns, then run the
table-wide remask pass.  `pix` is the list the external
`get_pixels` call returns, one entry per row.  With an empty catalog the
loop at lines 156-163 never binds `aperture_npix_col`, so line 170
raises NameError: modelled by the empty-list error case. -/
def photometerStep (fr ap : String) (pp : ℚ) (rmsF : PixSet → PVal)
    (pix : List PixSet) (t : Table) : Except Unit Table :=
  (mapME peakStat pix).bind fun peaks =>
    (mapME npixStat pix).bind fun npixs =>
      match pix with
      | [] => .error ()
      | _ :: _ =>
        (addColsE (removeColsCaught (statNames fr ap) t)
          (statCols fr ap pp rmsF pix peaks npixs)).bind fun t2 =>
        .ok (remaskTable t2)

/-- A contained frequency object (`RadioSource`), reduced to the
interface `photometer`/`ffplot` consume: its label, beam-coverage
factor, characteristic frequency, the external noise estimator
`utils.rms` and the external pixel extraction (aperture name to one
pixel set per row of the default catalog). -/
structure RSObj where
  freq_id : String
  ppbeam : ℚ
  nu : ℚ
  rmsFn : PixSet → PVal
  pixFn : String → List PixSet

def stepOfRS (rs : RSObj) (ap : String) (t : Table) : Except Unit Table :=
  photometerStep rs.freq_id ap rs.ppbeam rs.rmsFn (rs.pixFn ap) t

/-- `MasterCatalog.photometer(*args)` on the default catalog: for each
requested aperture, for each contained radio-source object, run one
photometry step against the master table. -/
def photometer (rss : List RSObj) (aps : List String) (t : Table) : Except Unit Table :=
  foldME (fun acc ap => foldME (fun acc2 rs => stepOfRS rs ap acc2) acc rss) t aps

/-! ### MasterCatalog state and `grab` (lines 22-57) -/

/-- The attribute state of a `MasterCatalog`: the master table, the
`nonrejected` view assigned by `__init__`, and the `accepted` attribute
that `grab` reads - which `__init__` never assigns (it assigns
`nonrejected` instead), so it is `none` on a freshly built catalog. -/
structure MCat where
  catalog : Table
  nonrejected : Table
  accepted : Option Table

/-- `__init__`: keep the table and derive `nonrejected` as the rows with
`rejected == 0`.  No `accepted` attribute is ever created. -/
def mkMCat (cat : Table) : MCat :=
  ⟨cat,
   selectRows cat ((List.range (nrows cat)).filter
     (fun i => decide (numValAt cat "rejected" i = some (.num 0)))),
   none⟩

/-- Row indices whose `_name` equals the requested name
(`self.catalog['_name'] == str(name)`). -/
def nameMatchIdx (t : Table) (nm : String) : List Nat :=
  (List.range (nrows t)).filter (fun i => decide (strValAt t "_name" i = some nm))

/-- `grab` with a single name.  With `skip_rejects=True` line 44 reads
`self.accepted`, an attribute `__init__` never set: AttributeError.
Otherwise line 57 returns the matching rows - read from `self.catalog`,
not from the local `catalog` variable the `skip_rejects` branch
prepared. -/
def grab (m : MCat) (nm : String) (skipRejects : Bool) : Except Unit Table :=
  match (if skipRejects then m.accepted else some m.catalog) with
  | none => .error ()
  | some _cat => .ok (selectRows m.catalog (nameMatchIdx m.catalog nm))

/-- `grab` with a list or tuple of names (lines 48-55).  The loop tests
`catalog['_name'][i] in names`, but `names` is not bound anywhere in the
function (the parameter is `name`): NameError as soon as the loop body
runs, and with zero rows the float-dtype empty index array makes the
final indexing fail instead.  Every call on this path raises. -/
def grabCollection (m : MCat) (_nms : List String) (skipRejects : Bool) : Except Unit Table :=
  match (if skipRejects then m.accepted else some m.catalog) with
  | none => .error ()
  | some _cat => .error ()

/-! ### `add_sources`: vertical stacking (lines 71-82)

`vstack` is called with its default `join_type='outer'`: the result has
the union of the column sets; a column missing from one side is filled
with masked cells there.  Only two same-named columns of incompatible
dtype raise (TableMergeError). -/

/-- Masked filler cells for a column absent from one of the stacked
tables (astropy fills with the dtype default and masks them). -/
def ColData.extendBack : ColData → Nat → ColData
  | .strD l, k => .strD (l ++ List.replicate k "")
  | .numD l, k => .numD (l ++ List.replicate k (.num 0))

def ColData.extendFront : ColData → Nat → ColData
  | .strD l, k => .strD (List.replicate k "" ++ l)
  | .numD l, k => .numD (List.replicate k (.num 0) ++ l)

/-- Concatenate the data of two same-named columns; `none` when the
dtypes are incompatible (TableMergeError). -/
def stackData : ColData → ColData → Option ColData
  | .strD a, .strD b => some (.strD (a ++ b))
  | .numD a, .numD b => some (.numD (a ++ b))
  | _, _ => none

/-- One column of the first table after stacking `m` rows of the second
table `s` below: concatenated with its same-named partner when `s` has
one, extended with masked filler cells otherwise. -/
def vstackOne (s : Table) (m : Nat) (c : Col) : Except Unit Col :=
  match lookupCol s c.name with
  | none => .ok ⟨c.name, c.data.extendBack m, c.mask ++ List.replicate m true⟩
  | some c2 =>
    match stackData c.data c2.data with
    | none => .error ()
    | some d => .ok ⟨c.name, d, c.mask ++ c2.mask⟩

/-- Effectful map over the columns of the first table. -/
def mapCE (f : Col → Except Unit Col) : Table → Except Unit Table
  | [] => .ok []
  | c :: cs => (f c).bind fun d => (mapCE f cs).bind fun ds => .ok (d :: ds)

/-- `vstack([t, s], join_type='outer')`: first table's columns in order
(stacked or mask-extended), then the columns only `s` has, filled with
masked cells for the first table's rows. -/
def vstackE (t s : Table) : Except Unit Table :=
  (mapCE (vstackOne s (nrows s)) t).bind fun p1 =>
    .ok (p1 ++ (s.filter (fun c2 => decide (c2.name ∉ colNames t))).map
      (fun c2 => ⟨c2.name, c2.data.extendFront (nrows t), List.replicate (nrows t) true ++ c2.mask⟩))

/-- `catalog['_index'] = range(len(catalog))`: replace the `_index`
column in place (creating it at the end when absent) with the dense,
unmasked row numbers. -/
def setCol (t : Table) (nm : String) (d : ColData) : Table :=
  if nm ∈ colNames t then
    t.map (fun c => if c.name = nm then ⟨nm, d, List.replicate d.dataLen false⟩ else c)
  else t ++ [⟨nm, d, List.replicate d.dataLen false⟩]

def setIndexDense (t : Table) : Table :=
  setCol t "_index" (.numD ((List.range (nrows t)).map (fun (i : Nat) => PVal.num (i : ℚ))))

/-- `add_sources(*args)`: stack each argument table below the master
table and reassign `_index` after every stack. -/
def addSourcesE (t : Table) (ss : List Table) : Except Unit Table :=
  foldME (fun acc s => (vstackE acc s).bind fun v => .ok (setIndexDense v)) t ss

/-! ### The `ffplot` row filter (lines 187-225) -/

/-- Line 196: `list(set(apertures) | {ellipse, annulus})` - the two
built-in apertures are force-included. -/
def apsFull (aps : List String) : List String :=
  aps.dedup ++ (["ellipse", "annulus"].filter (fun a => decide (a ∉ aps)))

/-- Lines 200-211: per aperture, the rms column at both frequencies plus
the peak (or sum) column at both frequencies. -/
def apCols (f1 f2 ap : String) (peak : Bool) : List String :=
  [f1 ++ "_" ++ ap ++ "_rms", f2 ++ "_" ++ ap ++ "_rms"] ++
    (if peak then [f1 ++ "_" ++ ap ++ "_peak", f2 ++ "_" ++ ap ++ "_peak"]
     else [f1 ++ "_" ++ ap ++ "_sum", f2 ++ "_" ++ ap ++ "_sum"])

/-- The full `cols` list the filter reads. -/
def requiredCols (f1 f2 : String) (aps : List String) (peak : Bool) : List String :=
  (apsFull aps).flatMap (fun a => apCols f1 f2 a peak)

/-- Rows with some required column masked:
`set(np.nonzero(catalog.mask[cols])[0])`. -/
def ffMaskedSet (t : Table) (cols : List String) : Finset ℕ :=
  (Finset.range (nrows t)).filter (fun i => cols.any (fun c => colMaskAt t c i) = true)

/-- Rows with `rejected == 1`: `set(np.where(catalog['rejected']==1)[0])`. -/
def ffRejSet (t : Table) : Finset ℕ :=
  (Finset.range (nrows t)).filter (fun i => numValAt t "rejected" i = some (.num 1))

/-- Lines 213-216: the selected row-index set,
`set(range(len(catalog))) ^ (masked_rows | rejected_rows)` - a symmetric
difference with the full index range. -/
def ffIndexSet (t : Table) (cols : List String) : Finset ℕ :=
  ((Finset.range (nrows t)) ∪ (ffMaskedSet t cols ∪ ffRejSet t)) \
    ((Finset.range (nrows t)) ∩ (ffMaskedSet t cols ∪ ffRejSet t))

/-- The selected indices as a row list (Python materialises
`list(set(...))`; only membership is specified, the model uses ascending
order), and the filtered comparison catalog `catalog[index]` that the
flux, error and label series are read from. -/
def ffIndex (t : Table) (cols : List String) : List ℕ :=
  (List.range (nrows t)).filter (fun i => decide (i ∈ ffIndexSet t cols))

def ffCatalog (t : Table) (cols : List String) : Table :=
  selectRows t (ffIndex t cols)

/-! ### Auxiliary definitions used by the proofs -/

deriving instance DecidableEq for Except

/-- The success condition of `add_columns`: each new column's name is
absent from the table at the moment it is appended. -/
def okToAdd : Table → List Col → Prop
  | _, [] => True
  | t, c :: cs => c.name ∉ colNames t ∧ okToAdd (t ++ [c]) cs

/-- The total version of `vstackOne`, equal to it whenever the shared
columns have compatible dtypes. -/
def vstackCol (s : Table) (m : Nat) (c : Col) : Col :=
  match lookupCol s c.name with
  | none => ⟨c.name, c.data.extendBack m, c.mask ++ List.replicate m true⟩
  | some c2 => ⟨c.name, (stackData c.data c2.data).getD c.data, c.mask ++ c2.mask⟩

/-! ### Concrete instances used by witnesses and counterexamples -/

/-- A radio source whose aperture extraction yields one two-pixel row. -/
def rsW : RSObj := ⟨"f", 1, 1, fun _ => PVal.num 0, fun _ => [PixSet.arr [PVal.num 1, PVal.num 2]]⟩

/-- A one-row, one-column master table. -/
def T0W : Table := [⟨"_name", ColData.strD ["a"], [false]⟩]

/-- The table produced by `photometer [rsW] ["ap"] T0W`. -/
def T1W : Table :=
  [⟨"_name", ColData.strD ["a"], [false]⟩,
   ⟨"f_ap_peak", ColData.numD [PVal.num 2], [false]⟩,
   ⟨"f_ap_sum", ColData.numD [PVal.num 3], [false]⟩,
   ⟨"f_ap_rms", ColData.numD [PVal.num 0], [false]⟩,
   ⟨"f_ap_median", ColData.numD [PVal.num (3/2)], [false]⟩,
   ⟨"f_ap_npix", ColData.numD [PVal.num 2], [false]⟩]

/-- A master table with a stored infinity in a column `photometer` does
not touch. -/
def TInf0 : Table :=
  [⟨"_name", ColData.strD ["a"], [false]⟩,
   ⟨"w", ColData.numD [PVal.inf], [false]⟩]

/-- The table produced by `photometer [rsW] ["ap"] TInf0`: the infinity
survives unmasked. -/
def TInf1 : Table :=
  [⟨"_name", ColData.strD ["a"], [false]⟩,
   ⟨"w", ColData.numD [PVal.inf], [false]⟩,
   ⟨"f_ap_peak", ColData.numD [PVal.num 2], [false]⟩,
   ⟨"f_ap_sum", ColData.numD [PVal.num 3], [false]⟩,
   ⟨"f_ap_rms", ColData.numD [PVal.num 0], [false]⟩,
   ⟨"f_ap_median", ColData.numD [PVal.num (3/2)], [false]⟩,
   ⟨"f_ap_npix", ColData.numD [PVal.num 2], [false]⟩]

/-- A master table with a stored NaN in a column `photometer` does not
touch. -/
def TNan0 : Table :=
  [⟨"_name", ColData.strD ["a"], [false]⟩,
   ⟨"w", ColData.numD [PVal.nan], [false]⟩]

/-- The table produced by `photometer [rsW] ["ap"] TNan0`: the NaN cell
is masked by the table-wide pass. -/
def TNan1 : Table :=
  [⟨"_name", ColData.strD ["a"], [false]⟩,
   ⟨"w", ColData.numD [PVal.nan], [true]⟩,
   ⟨"f_ap_peak", ColData.numD [PVal.num 2], [false]⟩,
   ⟨"f_ap_sum", ColData.numD [PVal.num 3], [false]⟩,
   ⟨"f_ap_rms", ColData.numD [PVal.num 0], [false]⟩,
   ⟨"f_ap_median", ColData.numD [PVal.num (3/2)], [false]⟩,
   ⟨"f_ap_npix", ColData.numD [PVal.num 2], [false]⟩]

/-- A radio source whose aperture extraction yields a single unsized
scalar pixel (a single-pixel aperture). -/
def rsScal : RSObj := ⟨"f", 1, 1, fun _ => PVal.num 0, fun _ => [PixSet.scalar (PVal.num 1)]⟩

/-- A three-row catalog for the `ffplot` filter: row 0 clean, row 1
rejected, row 2 masked in a required flux column. -/
def TFf : Table :=
  [⟨"_name", ColData.strD ["a", "b", "c"], [false, false, false]⟩,
   ⟨"rejected", ColData.numD [PVal.num 0, PVal.num 1, PVal.num 0], [false, false, false]⟩,
   ⟨"f1_ellipse_rms", ColData.numD [PVal.num 0, PVal.num 0, PVal.num 0], [false, false, false]⟩,
   ⟨"f2_ellipse_rms", ColData.numD [PVal.num 0, PVal.num 0, PVal.num 0], [false, false, false]⟩,
   ⟨"f1_ellipse_sum", ColData.numD [PVal.num 0, PVal.num 0, PVal.num 0], [false, false, true]⟩,
   ⟨"f2_ellipse_sum", ColData.numD [PVal.num 0, PVal.num 0, PVal.num 0], [false, false, false]⟩,
   ⟨"f1_annulus_rms", ColData.numD [PVal.num 0, PVal.num 0, PVal.num 0], [false, false, false]⟩,
   ⟨"f2_annulus_rms", ColData.numD [PVal.num 0, PVal.num 0, PVal.num 0], [false, false, false]⟩,
   ⟨"f1_annulus_sum", ColData.numD [PVal.num 0, PVal.num 0, PVal.num 0], [false, false, false]⟩,
   ⟨"f2_annulus_sum", ColData.numD [PVal.num 0, PVal.num 0, PVal.num 0], [false, false, false]⟩]

/-- A one-row catalog whose only row is named "a" and rejected. -/
def cat7 : Table :=
  [⟨"_name", ColData.strD ["a"], [false]⟩,
   ⟨"_index", ColData.numD [PVal.num 0], [false]⟩,
   ⟨"rejected", ColData.numD [PVal.num 1], [false]⟩]

/-- A one-row master table with the reserved columns. -/
def T6a : Table :=
  [⟨"_name", ColData.strD ["a"], [false]⟩,
   ⟨"_index", ColData.numD [PVal.num 0], [false]⟩,
   ⟨"rejected", ColData.numD [PVal.num 0], [false]⟩]

/-- A one-row table with the same schema to stack below `T6a`. -/
def T6b : Table :=
  [⟨"_name", ColData.strD ["b"], [false]⟩,
   ⟨"_index", ColData.numD [PVal.num 7], [false]⟩,
   ⟨"rejected", ColData.numD [PVal.num 0], [false]⟩]

/-- A one-row table whose column set differs from `T6a`'s. -/
def S9 : Table :=
  [⟨"_name", ColData.strD ["b"], [false]⟩,
   ⟨"foo", ColData.numD [PVal.num 5], [false]⟩]

/-- The outer-join result of `add_sources` on `T6a` and `S9`. -/
def R9 : Table :=
  [⟨"_name", ColData.strD ["a", "b"], [false, false]⟩,
   ⟨"_index", ColData.numD [PVal.num 0, PVal.num 1], [false, false]⟩,
   ⟨"rejected", ColData.numD [PVal.num 0, PVal.num 0], [false, true]⟩,
   ⟨"foo", ColData.numD [PVal.num 0, PVal.num 5], [true, false]⟩]

/-! ## Helper lemmas -/

theorem colNames_append (a b : Table) : colNames (a ++ b) = colNames a ++ colNames b :=
  List.map_append _ _ _

theorem remaskCol_name (c : Col) : (remaskCol c).name = c.name := by
  cases c with
  | mk nm d m => cases d <;> rfl

theorem remaskCol_data (c : Col) : (remaskCol c).data = c.data := by
  cases c with
  | mk nm d m => cases d <;> rfl

theorem zip_or_idem (f : PVal → Bool) (m : List Bool) (vs : List PVal) :
    List.zipWith (fun b v => b || f v) (List.zipWith (fun b v => b || f v) m vs) vs =
      List.zipWith (fun b v => b || f v) m vs := by
  induction m generalizing vs with
  | nil => simp
  | cons b bs ih =>
    cases vs with
    | nil => simp
    | cons v vv => simp [Bool.or_assoc, ih]

theorem remaskCol_idem (c : Col) : remaskCol (remaskCol c) = remaskCol c := by
  cases c with
  | mk nm d m =>
    cases d with
    | strD l => rfl
    | numD vs => simp [remaskCol, zip_or_idem]

theorem remaskTable_idem (t : Table) : remaskTable (remaskTable t) = remaskTable t := by
  induction t with
  | nil => rfl
  | cons c cs ih =>
    simp only [remaskTable, List.map_cons] at *
    rw [remaskCol_idem]
    exact congrArg _ (by simpa [remaskTable] using ih)

theorem colNames_remask (t : Table) : colNames (remaskTable t) = colNames t := by
  induction t with
  | nil => rfl
  | cons c cs ih =>
    simp only [remaskTable, colNames, List.map_cons] at *
    rw [remaskCol_name]
    exact congrArg _ ih

/-! `lookupCol` -/

theorem lookupCol_eq_none_iff (t : Table) (nm : String) :
    lookupCol t nm = none ↔ nm ∉ colNames t := by
  induction t with
  | nil => simp [lookupCol, colNames]
  | cons c cs ih =>
    by_cases h : c.name = nm
    · simp [lookupCol, h, colNames]
    · simp only [lookupCol, if_neg h, colNames, List.map_cons, List.mem_cons]
      rw [ih]
      constructor
      · intro hn hx
        rcases hx with hx | hx
        · exact h hx.symm
        · exact hn hx
      · intro hn hx
        exact hn (Or.inr hx)

theorem lookupCol_mem {t : Table} {nm : String} {c : Col}
    (h : lookupCol t nm = some c) : c ∈ t ∧ c.name = nm := by
  induction t with
  | nil => simp [lookupCol] at h
  | cons d ds ih =>
    by_cases hd : d.name = nm
    · simp [lookupCol, hd] at h
      exact ⟨by simp [← h], by rw [← h]; exact hd⟩
    · simp [lookupCol, hd] at h
      rcases ih h with ⟨h1, h2⟩
      exact ⟨List.mem_cons_of_mem _ h1, h2⟩

theorem lookupCol_append_some {a : Table} {nm : String} {c : Col} (b : Table)
    (h : lookupCol a nm = some c) : lookupCol (a ++ b) nm = some c := by
  induction a with
  | nil => simp [lookupCol] at h
  | cons d ds ih =>
    by_cases hd : d.name = nm
    · simp [lookupCol, hd] at h ⊢; exact h
    · simp [lookupCol, hd] at h ⊢; exact ih h

theorem lookupCol_append_none {a : Table} {nm : String} (b : Table)
    (h : lookupCol a nm = none) : lookupCol (a ++ b) nm = lookupCol b nm := by
  induction a with
  | nil => rfl
  | cons d ds ih =>
    by_cases hd : d.name = nm
    · simp [lookupCol, hd] at h
    · simp [lookupCol, hd] at h ⊢; exact ih h

theorem lookupCol_map {f : Col → Col} (hf : ∀ c, (f c).name = c.name)
    (t : Table) (nm : String) : lookupCol (t.map f) nm = (lookupCol t nm).map f := by
  induction t with
  | nil => rfl
  | cons c cs ih =>
    by_cases hc : c.name = nm
    · simp [lookupCol, hf, hc]
    · simp [lookupCol, hf, hc, ih]

theorem lookupCol_filter {p : Col → Bool} {t : Table} {nm : String}
    (h : ∀ c ∈ t, c.name = nm → p c = true) :
    lookupCol (t.filter p) nm = lookupCol t nm := by
  induction t with
  | nil => rfl
  | cons c cs ih =>
    by_cases hc : c.name = nm
    · have hp : p c = true := h c (List.mem_cons_self _ _) hc
      simp [List.filter_cons, hp, lookupCol, hc]
    · have ihh := ih (fun d hd => h d (List.mem_cons_of_mem _ hd))
      cases hp : p c with
      | true => simp [List.filter_cons, hp, lookupCol, hc, ihh]
      | false => simp [List.filter_cons, hp, lookupCol, hc, ihh]

/-! `addColsE` -/

theorem addColsE_eq_ok {t : Table} {cs : List Col} {r : Table} :
    addColsE t cs = .ok r ↔ okToAdd t cs ∧ r = t ++ cs := by
  induction cs generalizing t with
  | nil => simp [addColsE, okToAdd, eq_comm]
  | cons c cc ih =>
    by_cases h : c.name ∈ colNames t
    · simp [addColsE, h, okToAdd]
    · simp [addColsE, h, okToAdd, ih]

theorem okToAdd_congr {t t2 : Table} {cs : List Col}
    (h : colNames t = colNames t2) (hok : okToAdd t cs) : okToAdd t2 cs := by
  induction cs generalizing t t2 with
  | nil => trivial
  | cons c cc ih =>
    obtain ⟨h1, h2⟩ := hok
    refine ⟨by rw [← h]; exact h1, ih ?_ h2⟩
    rw [colNames_append, colNames_append, h]

theorem okToAdd_not_mem {t : Table} {cs : List Col}
    (hok : okToAdd t cs) : ∀ c ∈ cs, c.name ∉ colNames t := by
  induction cs generalizing t with
  | nil => intro c hc; simp at hc
  | cons d dd ih =>
    obtain ⟨h1, h2⟩ := hok
    intro c hc
    rcases List.mem_cons.mp hc with rfl | hc2
    · exact h1
    · intro hmem
      exact (ih h2 c hc2) (by rw [colNames_append]; exact List.mem_append_left _ hmem)

theorem okToAdd_nodup {t : Table} {cs : List Col}
    (hok : okToAdd t cs) : (cs.map Col.name).Nodup := by
  induction cs generalizing t with
  | nil => simp
  | cons d dd ih =>
    obtain ⟨h1, h2⟩ := hok
    simp only [List.map_cons, List.nodup_cons]
    constructor
    · intro hmem
      rcases List.mem_map.mp hmem with ⟨c, hc, hcn⟩
      have := okToAdd_not_mem h2 c hc
      exact this (by rw [colNames_append, hcn]; simp [colNames])
    · exact ih h2

theorem okToAdd_of {t : Table} {cs : List Col}
    (h1 : ∀ c ∈ cs, c.name ∉ colNames t) (h2 : (cs.map Col.name).Nodup) :
    okToAdd t cs := by
  induction cs generalizing t with
  | nil => trivial
  | cons d dd ih =>
    simp only [List.map_cons, List.nodup_cons] at h2
    refine ⟨h1 d (List.mem_cons_self _ _), ih ?_ h2.2⟩
    intro c hc
    rw [colNames_append]
    intro hmem
    rcases List.mem_append.mp hmem with hm | hm
    · exact h1 c (List.mem_cons_of_mem _ hc) hm
    · simp [colNames] at hm
      exact h2.1 (hm ▸ List.mem_map_of_mem Col.name hc)

/-! `removeAll` / `removeColsCaught` -/

theorem removeAll_append (ns : List String) (a b : Table) :
    removeAll ns (a ++ b) = removeAll ns a ++ removeAll ns b :=
  List.filter_append _ _

theorem removeAll_eq_self {ns : List String} {t : Table}
    (h : ∀ c ∈ t, c.name ∉ ns) : removeAll ns t = t := by
  unfold removeAll
  rw [List.filter_eq_self]
  intro c hc
  simpa using h c hc

theorem removeAll_eq_nil {ns : List String} {t : Table}
    (h : ∀ c ∈ t, c.name ∈ ns) : removeAll ns t = [] := by
  unfold removeAll
  rw [List.filter_eq_nil_iff]
  intro c hc
  simpa using h c hc

theorem colNames_removeAll_sub (ns : List String) (t : Table) :
    ∀ nm ∈ colNames (removeAll ns t), nm ∈ colNames t ∧ nm ∉ ns := by
  intro nm hnm
  rcases List.mem_map.mp hnm with ⟨c, hc, rfl⟩
  rcases List.mem_filter.mp hc with ⟨hct, hcp⟩
  exact ⟨List.mem_map_of_mem _ hct, by simpa using hcp⟩

/-- Success of an `Except.bind`, the workhorse for unpacking the
effectful definitions. -/
theorem ebind_ok {α β : Type} {x : Except Unit α} {f : α → Except Unit β} {b : β} :
    x.bind f = .ok b ↔ ∃ a, x = .ok a ∧ f a = .ok b := by
  cases x <;> simp [Except.bind]

theorem mapME_ok_length {f : PixSet → Except Unit PVal} {l : List PixSet} {r : List PVal}
    (h : mapME f l = .ok r) : r.length = l.length := by
  induction l generalizing r with
  | nil => simp [mapME] at h; simp [← h]
  | cons p ps ih =>
    unfold mapME at h
    rcases ebind_ok.mp h with ⟨v, hv, h2⟩
    rcases ebind_ok.mp h2 with ⟨vs, hvs, h3⟩
    simp at h3
    simp [← h3, ih hvs]

/-! `photometerStep` structure -/

theorem statCols_names (fr ap : String) (pp : ℚ) (rmsF : PixSet → PVal)
    (pix : List PixSet) (peaks npixs : List PVal) :
    (statCols fr ap pp rmsF pix peaks npixs).map Col.name = statNames fr ap := rfl

theorem photometerStep_ok_elim {fr ap : String} {pp : ℚ} {rmsF : PixSet → PVal}
    {pix : List PixSet} {t t1 : Table}
    (h : photometerStep fr ap pp rmsF pix t = .ok t1) :
    ∃ peaks npixs,
      mapME peakStat pix = .ok peaks ∧ mapME npixStat pix = .ok npixs ∧ pix ≠ [] ∧
      okToAdd (removeColsCaught (statNames fr ap) t)
        (statCols fr ap pp rmsF pix peaks npixs) ∧
      t1 = remaskTable (removeColsCaught (statNames fr ap) t ++
        statCols fr ap pp rmsF pix peaks npixs) := by
  unfold photometerStep at h
  rcases ebind_ok.mp h with ⟨peaks, hpk, h2⟩
  rcases ebind_ok.mp h2 with ⟨npixs, hnp, h3⟩
  cases pix with
  | nil => simp at h3
  | cons p ps =>
    simp only at h3
    rcases ebind_ok.mp h3 with ⟨t2, hadd, h4⟩
    simp at h4
    rcases addColsE_eq_ok.mp hadd with ⟨hok, rfl⟩
    exact ⟨peaks, npixs, hpk, hnp, List.cons_ne_nil _ _, hok, h4.symm⟩

theorem photometerStep_ok_intro {fr ap : String} {pp : ℚ} {rmsF : PixSet → PVal}
    {pix : List PixSet} {t : Table} {peaks npixs : List PVal}
    (hpk : mapME peakStat pix = .ok peaks) (hnp : mapME npixStat pix = .ok npixs)
    (hne : pix ≠ [])
    (hok : okToAdd (removeColsCaught (statNames fr ap) t)
      (statCols fr ap pp rmsF pix peaks npixs)) :
    photometerStep fr ap pp rmsF pix t = .ok (remaskTable
      (removeColsCaught (statNames fr ap) t ++ statCols fr ap pp rmsF pix peaks npixs)) := by
  have hadd : addColsE (removeColsCaught (statNames fr ap) t)
      (statCols fr ap pp rmsF pix peaks npixs) = .ok
      (removeColsCaught (statNames fr ap) t ++ statCols fr ap pp rmsF pix peaks npixs) :=
    addColsE_eq_ok.mpr ⟨hok, rfl⟩
  unfold photometerStep
  cases pix with
  | nil => exact absurd rfl hne
  | cons p ps =>
    exact ebind_ok.mpr ⟨peaks, hpk, ebind_ok.mpr ⟨npixs, hnp, ebind_ok.mpr ⟨_, hadd, rfl⟩⟩⟩

/-- `photometer` with a single contained radio source and a single
aperture is exactly one photometry step. -/
theorem photometer_single (rs : RSObj) (ap : String) (t : Table) :
    photometer [rs] [ap] t = stepOfRS rs ap t := by
  simp only [photometer, foldME]
  cases h : stepOfRS rs ap t with
  | error e => simp [h, Except.bind]
  | ok t2 => simp [h, Except.bind, foldME]

theorem remaskTable_append (a b : Table) :
    remaskTable (a ++ b) = remaskTable a ++ remaskTable b :=
  List.map_append _ _ _

theorem mem_remask {t : Table} {c : Col} (hc : c ∈ remaskTable t) :
    ∃ c0 ∈ t, c = remaskCol c0 := by
  rcases List.mem_map.mp hc with ⟨c0, h0, rfl⟩
  exact ⟨c0, h0, rfl⟩

/-- A successful photometry step is idempotent: running the same
(freq_id, aperture) pair again removes the five previously added
columns, recomputes identical ones, and remasks identically. -/
theorem photometerStep_idem {fr ap : String} {pp : ℚ} {rmsF : PixSet → PVal}
    {pix : List PixSet} {t t1 : Table}
    (h : photometerStep fr ap pp rmsF pix t = .ok t1) :
    photometerStep fr ap pp rmsF pix t1 = .ok t1 := by
  rcases photometerStep_ok_elim h with ⟨peaks, npixs, hpk, hnp, hne, hok, ht1⟩
  set ns := statNames fr ap with hns
  set R := removeColsCaught ns t with hR
  set C := statCols fr ap pp rmsF pix peaks npixs with hC
  have hCnames : colNames C = ns := statCols_names fr ap pp rmsF pix peaks npixs
  have hnotmem : ∀ n ∈ ns, n ∉ colNames R := by
    intro n hn
    rw [← hCnames] at hn
    rcases List.mem_map.mp hn with ⟨c, hc, rfl⟩
    exact okToAdd_not_mem hok c hc
  have ht1names : colNames t1 = colNames R ++ ns := by
    rw [ht1, colNames_remask, colNames_append, hCnames]
  -- the second run's removal: all five names are present, and removal
  -- recovers exactly the non-statistic part of the first run's output
  have hremove : removeColsCaught ns t1 = remaskTable R := by
    have hall : ∀ n ∈ ns, n ∈ colNames t1 := by
      intro n hn
      rw [ht1names]
      exact List.mem_append_right _ hn
    rw [removeColsCaught, if_pos hall, ht1, remaskTable_append, removeAll_append]
    rw [removeAll_eq_self (t := remaskTable R) ?hself, removeAll_eq_nil (t := remaskTable C) ?hnil,
      List.append_nil]
    case hself =>
      intro c hc
      rcases mem_remask hc with ⟨c0, h0, rfl⟩
      rw [remaskCol_name]
      intro hmem
      exact hnotmem c0.name hmem (List.mem_map_of_mem _ h0)
    case hnil =>
      intro c hc
      rcases mem_remask hc with ⟨c0, h0, rfl⟩
      rw [remaskCol_name, ← hCnames]
      exact List.mem_map_of_mem _ h0
  have hok2 : okToAdd (removeColsCaught ns t1) C := by
    rw [hremove]
    exact okToAdd_congr (colNames_remask R).symm hok
  have h2 := photometerStep_ok_intro (t := t1) hpk hnp hne hok2
  rw [h2, hremove, remaskTable_append, remaskTable_idem, ← remaskTable_append, ← ht1]

/-! ## Claim C1 -/

/-- C1: re-running `photometer` for the same (freq_id, aperture) pair on
the same master catalog reproduces the table exactly - in particular the
five statistic columns `{freq_id}_{aperture}_{peak,sum,rms,median,npix}`
hold identical values - the five columns each occur exactly once, and no
duplicate column names are introduced: the second run removes the
existing five columns before appending the recomputed ones. -/
theorem photometer_rerun_idempotent (rs : RSObj) (ap : String) (t t1 : Table)
    (h : photometer [rs] [ap] t = .ok t1) :
    photometer [rs] [ap] t1 = .ok t1 ∧
    (∀ nm ∈ statNames rs.freq_id ap, (colNames t1).count nm = 1) ∧
    ((colNames t).Nodup → (colNames t1).Nodup) := by
  rw [photometer_single] at h
  rcases photometerStep_ok_elim h with ⟨peaks, npixs, hpk, hnp, hne, hok, ht1⟩
  set ns := statNames rs.freq_id ap with hns
  set R := removeColsCaught ns t with hR
  set C := statCols rs.freq_id ap rs.ppbeam rs.rmsFn (rs.pixFn ap) peaks npixs with hC
  have hCnames : colNames C = ns := statCols_names _ _ _ _ _ _ _
  have hnotmem : ∀ n ∈ ns, n ∉ colNames R := by
    intro n hn
    rw [← hCnames] at hn
    rcases List.mem_map.mp hn with ⟨c, hc, rfl⟩
    exact okToAdd_not_mem hok c hc
  have hnodupns : ns.Nodup := by
    rw [← hCnames]
    exact okToAdd_nodup hok
  have ht1names : colNames t1 = colNames R ++ ns := by
    rw [ht1, colNames_remask, colNames_append, hCnames]
  refine ⟨?_, ?_, ?_⟩
  · rw [photometer_single]
    exact photometerStep_idem h
  · intro nm hnm
    rw [ht1names, List.count_append]
    have h0 : (colNames R).count nm = 0 :=
      List.count_eq_zero.mpr (hnotmem nm hnm)
    rw [h0, List.count_eq_one_of_mem hnodupns hnm]
  · intro hnd
    rw [ht1names]
    rw [List.nodup_append]
    refine ⟨?_, hnodupns, ?_⟩
    · -- the kept part of the table has a sub-multiset of the old names
      have : colNames R = colNames t ∨ colNames R = colNames (removeAll ns t) := by
        rw [hR, removeColsCaught]
        by_cases hcond : ∀ n ∈ ns, n ∈ colNames t
        · rw [if_pos hcond]; exact Or.inr rfl
        · rw [if_neg hcond]; exact Or.inl rfl
      rcases this with hh | hh
      · rw [hh]; exact hnd
      · rw [hh]
        exact List.Nodup.sublist (List.Sublist.map _ (List.filter_sublist _)) hnd
    · intro nm hm1 hm2
      exact hnotmem nm hm2 hm1

/-- Witness for C1 at a concrete catalog, radio source and pixel set. -/
theorem photometer_rerun_idempotent_witness :
    photometer [rsW] ["ap"] T1W = .ok T1W ∧
    (∀ nm ∈ statNames rsW.freq_id "ap", (colNames T1W).count nm = 1) ∧
    ((colNames T0W).Nodup → (colNames T1W).Nodup) :=
  photometer_rerun_idempotent rsW "ap" T0W T1W (by with_unfolding_all decide)

/-! ## Claim C2 -/

theorem zip_or_getD {m : List Bool} {vs : List PVal} {i : Nat}
    (hi : i < vs.length) (hm : i < m.length) :
    (List.zipWith (fun b v => b || v.isNaN) m vs).getD i false =
      (m.getD i false || (vs.getD i .nan).isNaN) := by
  induction m generalizing vs i with
  | nil => simp at hm
  | cons b bs ih =>
    cases vs with
    | nil => simp at hi
    | cons v vv =>
      cases i with
      | zero => simp
      | succ j => simpa using ih (by simpa using hi) (by simpa using hm)

theorem map_fix_pointwise {f : Col → Col} {t : Table} (h : t.map f = t) :
    ∀ c ∈ t, f c = c := by
  induction t with
  | nil => intro c hc; simp at hc
  | cons d ds ih =>
    rw [List.map_cons, List.cons.injEq] at h
    intro c hc
    rcases List.mem_cons.mp hc with rfl | hc2
    · exact h.1
    · exact ih h.2 c hc2

/-- In a table fixed by the remask pass, every stored NaN cell of a
numeric column is masked. -/
theorem nan_masked_of_fix {t1 : Table} {n : Nat}
    (hfix : remaskTable t1 = t1) (hwf : TableWF t1 n) :
    ∀ c ∈ t1, ∀ vs, c.data = .numD vs → ∀ i v, vs.get? i = some v →
      v.isNaN = true → c.mask.getD i false = true := by
  intro c hc vs hvs i v hget hnan
  have hcfix : remaskCol c = c := map_fix_pointwise hfix c hc
  have hi : i < vs.length := by
    by_contra hlt
    rw [List.get?_eq_none.mpr (Nat.le_of_not_lt hlt)] at hget
    exact Option.noConfusion hget
  have hlen := hwf c hc
  cases c with
  | mk nm d m =>
    simp only at hvs
    subst hvs
    simp only [remaskCol, Col.mk.injEq] at hcfix
    have hmask := hcfix.2.2
    have hm : i < m.length := by
      rw [hlen.2, ← hlen.1]
      simpa [ColData.dataLen] using hi
    calc m.getD i false
        = (List.zipWith (fun b v => b || v.isNaN) m vs).getD i false := by rw [hmask]
      _ = (m.getD i false || (vs.getD i .nan).isNaN) := zip_or_getD hi hm
      _ = true := by
          have : vs.getD i .nan = v := by
            rw [List.getD_eq_getElem?_getD, ← List.get?_eq_getElem?, hget]; rfl
          rw [this, hnan, Bool.or_true]

theorem photometerStep_WF {fr ap : String} {pp : ℚ} {rmsF : PixSet → PVal}
    {pix : List PixSet} {t t1 : Table} {n : Nat}
    (hwf : TableWF t n) (hlen : pix.length = n)
    (h : photometerStep fr ap pp rmsF pix t = .ok t1) : TableWF t1 n := by
  rcases photometerStep_ok_elim h with ⟨peaks, npixs, hpk, hnp, hne, hok, ht1⟩
  have hwfR : TableWF (removeColsCaught (statNames fr ap) t) n := by
    unfold removeColsCaught
    by_cases hc : ∀ n2 ∈ statNames fr ap, n2 ∈ colNames t
    · rw [if_pos hc]; intro c hcc; exact hwf c (List.mem_filter.mp hcc).1
    · rw [if_neg hc]; exact hwf
  have hpeaks : peaks.length = n := by rw [mapME_ok_length hpk, hlen]
  have hnpixs : npixs.length = n := by rw [mapME_ok_length hnp, hlen]
  have hwfC : TableWF (statCols fr ap pp rmsF pix peaks npixs) n := by
    intro c hc
    simp only [statCols, List.mem_cons, List.not_mem_nil, or_false] at hc
    rcases hc with rfl | rfl | rfl | rfl | rfl <;>
      simp [mkNumCol, ColData.dataLen, hpeaks, hnpixs, hlen]
  subst ht1
  intro c hc
  rcases mem_remask hc with ⟨c0, h0, rfl⟩
  have h00 : c0.data.dataLen = n ∧ c0.mask.length = n := by
    rcases List.mem_append.mp h0 with hm | hm
    · exact hwfR c0 hm
    · exact hwfC c0 hm
  cases c0 with
  | mk nm d m =>
    cases d with
    | strD l => simpa [remaskCol] using h00
    | numD vs =>
      refine ⟨by simpa [remaskCol, ColData.dataLen] using h00.1, ?_⟩
      have h1 : vs.length = n := by simpa [ColData.dataLen] using h00.1
      have h2 : m.length = n := h00.2
      simp [remaskCol, h1, h2]

theorem photometerStep_remask_fix {fr ap : String} {pp : ℚ} {rmsF : PixSet → PVal}
    {pix : List PixSet} {t t1 : Table}
    (h : photometerStep fr ap pp rmsF pix t = .ok t1) :
    remaskTable t1 = t1 := by
  rcases photometerStep_ok_elim h with ⟨peaks, npixs, _, _, _, _, ht1⟩
  rw [ht1, remaskTable_idem]

theorem foldME_ok_inv_mem {α : Type} {f : Table → α → Except Unit Table}
    {Q : Table → Prop} {xs : List α}
    (hf : ∀ acc x t2, x ∈ xs → Q acc → f acc x = .ok t2 → Q t2) :
    ∀ {t t2 : Table}, Q t → foldME f t xs = .ok t2 → Q t2 := by
  induction xs with
  | nil =>
    intro t t2 hq h
    unfold foldME at h
    simp at h
    rwa [← h]
  | cons a as ih =>
    intro t t2 hq h
    unfold foldME at h
    rcases ebind_ok.mp h with ⟨tb, hfa, hrest⟩
    exact ih (fun acc x t3 hx => hf acc x t3 (List.mem_cons_of_mem _ hx))
      (hf t a tb (List.mem_cons_self _ _) hq hfa) hrest

theorem foldME_ok_last_mem {α : Type} {f : Table → α → Except Unit Table}
    {P : Table → Prop} {xs : List α}
    (hf : ∀ acc x t2, x ∈ xs → f acc x = .ok t2 → P t2) :
    ∀ {t t2 : Table}, xs ≠ [] → foldME f t xs = .ok t2 → P t2 := by
  induction xs with
  | nil => intro t t2 hne; exact absurd rfl hne
  | cons a as ih =>
    intro t t2 _ h
    unfold foldME at h
    rcases ebind_ok.mp h with ⟨tb, hfa, hrest⟩
    cases as with
    | nil =>
      unfold foldME at hrest
      simp at hrest
      rw [← hrest]
      exact hf t a tb (List.mem_cons_self _ _) hfa
    | cons b bs =>
      exact ih (fun acc x t3 hx => hf acc x t3 (List.mem_cons_of_mem _ hx))
        (List.cons_ne_nil _ _) hrest

/-- C2 (amended): after every `photometer` call, in every numeric column
of the master table - including columns the call did not touch - every
cell whose stored value is NaN is masked, and the remask pass is
idempotent: the resulting table is a fixed point of it.  (The original
claim said "non-finite"; the code checks `np.isnan` only, so stored
infinities are not masked - see the counterexample.) -/
theorem photometer_nan_remask (rss : List RSObj) (aps : List String) (t t1 : Table) (n : Nat)
    (hrss : rss ≠ []) (haps : aps ≠ [])
    (hwf : TableWF t n)
    (hpix : ∀ rs ∈ rss, ∀ ap ∈ aps, (rs.pixFn ap).length = n)
    (h : photometer rss aps t = .ok t1) :
    (∀ c ∈ t1, ∀ vs, c.data = .numD vs → ∀ i v, vs.get? i = some v →
        v.isNaN = true → c.mask.getD i false = true) ∧
    remaskTable t1 = t1 := by
  have hwf1 : TableWF t1 n := by
    refine foldME_ok_inv_mem (Q := fun x => TableWF x n) ?_ hwf h
    intro acc ap t2 hap hq hinner
    refine foldME_ok_inv_mem (Q := fun x => TableWF x n) ?_ hq hinner
    intro acc2 rs t3 hrs hq2 hstep
    exact photometerStep_WF hq2 (hpix rs hrs ap hap) hstep
  have hfix : remaskTable t1 = t1 := by
    refine foldME_ok_last_mem (P := fun x => remaskTable x = x) ?_ haps h
    intro acc ap t2 hap hinner
    refine foldME_ok_last_mem (P := fun x => remaskTable x = x) ?_ hrss hinner
    intro acc2 rs t3 hrs hstep
    exact photometerStep_remask_fix hstep
  exact ⟨nan_masked_of_fix hfix hwf1, hfix⟩

/-- Witness for the amended C2: a pre-existing NaN in an untouched
column is masked by the call, and the result is remask-fixed. -/
theorem photometer_nan_remask_witness :
    (∀ c ∈ TNan1, ∀ vs, c.data = .numD vs → ∀ i v, vs.get? i = some v →
        v.isNaN = true → c.mask.getD i false = true) ∧
    remaskTable TNan1 = TNan1 :=
  photometer_nan_remask [rsW] ["ap"] TNan0 TNan1 1
    (List.cons_ne_nil _ _) (List.cons_ne_nil _ _)
    (by with_unfolding_all decide) (by with_unfolding_all decide)
    (by with_unfolding_all decide)

/-- Counterexample to C2 as stated: a stored infinity - a non-finite
value - in an untouched column survives a `photometer` call with its
mask still clear, because the remask pass tests `np.isnan`, not
`np.isfinite`. -/
theorem photometer_inf_survives_unmasked :
    photometer [rsW] ["ap"] TInf0 = .ok TInf1 ∧
    numValAt TInf1 "w" 0 = some PVal.inf ∧
    PVal.isFinite PVal.inf = false ∧
    colMaskAt TInf1 "w" 0 = false := by
  with_unfolding_all decide

/-! ## Claim C4 -/

/-- C4: per-row statistics at a single-pixel (unsized scalar) aperture.
The sum's TypeError is caught and converted to NaN while peak and
median are still defined, and on a sizable array the sum is the
positive-pixel sum divided by ppbeam - but the pixel-count loop calls
`len()` on the unsized scalar, raising an uncaught TypeError that
propagates out of `photometer` (the final conjunct), contradicting the
never-propagate error policy. -/
theorem single_pixel_aperture_behavior :
    sumStat 2 (.scalar (.num 1)) = .nan ∧
    peakStat (.scalar (.num 1)) = .ok (.num 1) ∧
    medianStat (.scalar (.num 1)) = .num 1 ∧
    sumStat 2 (.arr [.num 3, .num (-1), .num 2]) = .num (5/2) ∧
    npixStat (.scalar (.num 1)) = .error () ∧
    photometer [rsScal] ["ap"] T0W = .error () := by
  with_unfolding_all decide

/-! ## Claim C5 -/

theorem zip_or_replicate_false (vs : List PVal) :
    List.zipWith (fun b v => b || v.isNaN) (List.replicate vs.length false) vs =
      vs.map PVal.isNaN := by
  induction vs with
  | nil => rfl
  | cons v vv ih => simp [List.replicate, ih]

/-- C5 (amended): the pixel-count statistic of a sizable pixel array is
NaN exactly when some pixel is NaN (not: non-finite), and the number of
pixels otherwise; a freshly added statistic column is masked by the
remask pass exactly at its NaN entries, so a NaN pixel count ends up
masked. -/
theorem npix_nan_rule (l : List PVal) (nm : String) (vs : List PVal) :
    npixStat (.arr l) = .ok (if l.any PVal.isNaN then PVal.nan else PVal.num l.length) ∧
    ((∃ v ∈ l, v.isNaN = true) ↔ npixStat (.arr l) = .ok PVal.nan) ∧
    (remaskCol (mkNumCol nm vs)).mask = vs.map PVal.isNaN := by
  refine ⟨?_, ⟨?_, ?_⟩, ?_⟩
  · unfold npixStat
    exact (apply_ite Except.ok _ _ _).symm
  · intro hex
    rcases hex with ⟨v, hv, hnan⟩
    have : l.any PVal.isNaN = true := List.any_eq_true.mpr ⟨v, hv, hnan⟩
    simp [npixStat, this]
  · intro h
    by_cases hany : l.any PVal.isNaN = true
    · exact List.any_eq_true.mp hany
    · simp [npixStat, hany] at h
  · simp [remaskCol, mkNumCol, zip_or_replicate_false]

/-- Witness for the amended C5 at concrete pixel arrays. -/
theorem npix_nan_rule_witness :
    npixStat (.arr [PVal.nan, PVal.num 1]) = .ok (if ([PVal.nan, PVal.num 1]).any PVal.isNaN
      then PVal.nan else PVal.num ([PVal.nan, PVal.num 1]).length) ∧
    ((∃ v ∈ [PVal.nan, PVal.num 1], v.isNaN = true) ↔
      npixStat (.arr [PVal.nan, PVal.num 1]) = .ok PVal.nan) ∧
    (remaskCol (mkNumCol "x" [PVal.nan, PVal.num 1])).mask =
      ([PVal.nan, PVal.num 1]).map PVal.isNaN :=
  npix_nan_rule [PVal.nan, PVal.num 1] "x" [PVal.nan, PVal.num 1]

/-- Counterexample to C5 as stated: a pixel set containing an infinity
(non-finite, but not NaN) still gets the full pixel count, not NaN. -/
theorem npix_inf_counted :
    npixStat (.arr [PVal.inf]) = .ok (.num 1) ∧
    PVal.isFinite PVal.inf = false ∧
    PVal.isNaN (.num 1) = false := by
  with_unfolding_all decide

/-! ## Claims C7 and C8 -/

/-- C7: single-name `grab` returns exactly the rows whose `_name`
matches (first conjunct: the row filter is precisely the name match, in
table order); but on the concrete rejected row, `grab` with
`skip_rejects=True` raises AttributeError (`__init__` assigns
`nonrejected`, `grab` reads `accepted`) instead of filtering the
rejected row out. -/
theorem grab_single_name_behavior :
    (∀ (t : Table) (nm : String) (i : Nat),
      i ∈ nameMatchIdx t nm ↔ (i < nrows t ∧ strValAt t "_name" i = some nm)) ∧
    grab (mkMCat cat7) "a" false = .ok (selectRows cat7 [0]) ∧
    numValAt cat7 "rejected" 0 = some (.num 1) ∧
    grab (mkMCat cat7) "a" true = .error () := by
  refine ⟨?_, ?_, ?_, rfl⟩
  · intro t nm i
    unfold nameMatchIdx
    simp [List.mem_filter, List.mem_range]
  · with_unfolding_all decide
  · with_unfolding_all decide

/-- C8: `grab` with a collection of names never returns the matching
rows: the filter loop reads the unbound identifier `names` (the
parameter is `name`), so the call raises NameError even though a row
with a matching `_name` exists. -/
theorem grab_collection_name_error :
    grabCollection (mkMCat cat7) ["a"] false = .error () ∧
    0 ∈ nameMatchIdx cat7 "a" ∧
    grabCollection (mkMCat cat7) ["a"] true = .error () := by
  refine ⟨rfl, by with_unfolding_all decide, rfl⟩

/-! ## `vstack` structure (claims C6 and C9) -/

theorem stackData_some_of_kind {d1 d2 : ColData} (h : d1.kind = d2.kind) :
    ∃ d, stackData d1 d2 = some d := by
  cases d1 <;> cases d2 <;> simp [ColData.kind, stackData] at h ⊢

theorem stackData_dataLen {d1 d2 d : ColData} (h : stackData d1 d2 = some d) :
    d.dataLen = d1.dataLen + d2.dataLen := by
  cases d1 <;> cases d2 <;> simp [stackData] at h <;> simp [← h, ColData.dataLen]

theorem extendBack_dataLen (d : ColData) (k : Nat) :
    (d.extendBack k).dataLen = d.dataLen + k := by
  cases d <;> simp [ColData.extendBack, ColData.dataLen]

theorem extendFront_dataLen (d : ColData) (k : Nat) :
    (d.extendFront k).dataLen = k + d.dataLen := by
  cases d <;> simp [ColData.extendFront, ColData.dataLen]

theorem vstackOne_eq {s : Table} {m : Nat} {c : Col}
    (hk : ∀ c2, lookupCol s c.name = some c2 → c.data.kind = c2.data.kind) :
    vstackOne s m c = .ok (vstackCol s m c) := by
  unfold vstackOne vstackCol
  cases hl : lookupCol s c.name with
  | none => rfl
  | some c2 =>
    rcases stackData_some_of_kind (hk c2 hl) with ⟨d, hd⟩
    simp only [hd, Option.getD_some]

theorem mapCE_ok_of {f : Col → Except Unit Col} {g : Col → Col} {t : Table}
    (h : ∀ c ∈ t, f c = .ok (g c)) : mapCE f t = .ok (t.map g) := by
  induction t with
  | nil => rfl
  | cons c cs ih =>
    have hc := h c (List.mem_cons_self _ _)
    have hcs := ih (fun d hd => h d (List.mem_cons_of_mem _ hd))
    simp [mapCE, hc, hcs, Except.bind]

theorem vstackE_ok {t s : Table}
    (hk : ∀ c ∈ t, ∀ c2, lookupCol s c.name = some c2 → c.data.kind = c2.data.kind) :
    vstackE t s = .ok (t.map (vstackCol s (nrows s)) ++
      (s.filter (fun c2 => decide (c2.name ∉ colNames t))).map
        (fun c2 => ⟨c2.name, c2.data.extendFront (nrows t),
          List.replicate (nrows t) true ++ c2.mask⟩)) := by
  unfold vstackE
  rw [mapCE_ok_of (fun c hc => vstackOne_eq (hk c hc))]
  rfl

theorem vstackCol_name (s : Table) (m : Nat) (c : Col) :
    (vstackCol s m c).name = c.name := by
  unfold vstackCol
  cases lookupCol s c.name <;> rfl

theorem vstackCol_dataLen {s : Table} {m : Nat} {c : Col}
    (hws : TableWF s m)
    (hk : ∀ c2, lookupCol s c.name = some c2 → c.data.kind = c2.data.kind) :
    (vstackCol s m c).data.dataLen = c.data.dataLen + m := by
  unfold vstackCol
  cases hl : lookupCol s c.name with
  | none => simp [extendBack_dataLen]
  | some c2 =>
    rcases stackData_some_of_kind (hk c2 hl) with ⟨d, hd⟩
    simp only [hd, Option.getD_some]
    rw [stackData_dataLen hd, (hws c2 (lookupCol_mem hl).1).1]

theorem vstackCol_maskLen {s : Table} {m : Nat} {c : Col} (hws : TableWF s m) :
    (vstackCol s m c).mask.length = c.mask.length + m := by
  unfold vstackCol
  cases hl : lookupCol s c.name with
  | none => simp
  | some c2 => simp [(hws c2 (lookupCol_mem hl).1).2]

theorem lookupCol_of_mem_nodup {t : Table} {c : Col}
    (hc : c ∈ t) (hnd : (colNames t).Nodup) : lookupCol t c.name = some c := by
  induction t with
  | nil => simp at hc
  | cons d ds ih =>
    simp only [colNames, List.map_cons, List.nodup_cons] at hnd
    rcases List.mem_cons.mp hc with rfl | hc2
    · simp [lookupCol]
    · have hne : d.name ≠ c.name := by
        intro heq
        exact hnd.1 (heq ▸ List.mem_map_of_mem Col.name hc2)
      simp [lookupCol, hne]
      exact ih hc2 hnd.2

theorem map_filter_name (s : Table) (p : String → Bool) :
    (s.filter (fun c2 => p c2.name)).map Col.name = (s.map Col.name).filter p := by
  induction s with
  | nil => rfl
  | cons c cs ih =>
    by_cases hp : p c.name = true
    · simp [List.filter_cons, hp, ih]
    · simp only [Bool.not_eq_true] at hp
      simp [List.filter_cons, hp, ih]

theorem nrows_of_WF {t : Table} {n : Nat} (h : TableWF t n) (hne : t ≠ []) :
    nrows t = n := by
  cases t with
  | nil => exact absurd rfl hne
  | cons c cs => exact (h c (List.mem_cons_self _ _)).1

/-! `setCol` -/

theorem colNames_map_pres {f : Col → Col} (hf : ∀ c, (f c).name = c.name)
    (t : Table) : colNames (t.map f) = colNames t := by
  induction t with
  | nil => rfl
  | cons c cs ih =>
    simp only [colNames, List.map_cons] at *
    rw [hf c]
    exact congrArg (List.cons c.name) ih

theorem lookupCol_map_replace (t : Table) (nm : String) (d : ColData)
    (h : nm ∈ colNames t) :
    lookupCol (t.map (fun c => if c.name = nm then
        (⟨nm, d, List.replicate d.dataLen false⟩ : Col) else c)) nm
      = some ⟨nm, d, List.replicate d.dataLen false⟩ := by
  induction t with
  | nil => simp [colNames] at h
  | cons c cs ih =>
    by_cases hc : c.name = nm
    · simp [lookupCol, hc]
    · have hcc : colNames (c :: cs) = c.name :: colNames cs := rfl
      rw [hcc] at h
      have h2 : nm ∈ colNames cs := by
        rcases List.mem_cons.mp h with h3 | h3
        · exact absurd h3.symm hc
        · exact h3
      simp [lookupCol, hc, ih h2]

theorem lookupCol_setCol_self (t : Table) (nm : String) (d : ColData) :
    lookupCol (setCol t nm d) nm = some ⟨nm, d, List.replicate d.dataLen false⟩ := by
  unfold setCol
  by_cases h : nm ∈ colNames t
  · rw [if_pos h]
    exact lookupCol_map_replace t nm d h
  · rw [if_neg h, lookupCol_append_none _ ((lookupCol_eq_none_iff t nm).mpr h)]
    simp [lookupCol]

theorem lookupCol_setCol_other (t : Table) (nm : String) (d : ColData) (nm2 : String)
    (hne : nm2 ≠ nm) : lookupCol (setCol t nm d) nm2 = lookupCol t nm2 := by
  unfold setCol
  have hFname : ∀ c : Col, ((fun c : Col => if c.name = nm then
      (⟨nm, d, List.replicate d.dataLen false⟩ : Col) else c) c).name = c.name := by
    intro c
    by_cases hc : c.name = nm <;> simp [hc]
  by_cases h : nm ∈ colNames t
  · rw [if_pos h, lookupCol_map hFname]
    cases hl : lookupCol t nm2 with
    | none => rfl
    | some c =>
      have hcn : c.name = nm2 := (lookupCol_mem hl).2
      have hcne : ¬ c.name = nm := fun hh => hne (hcn.symm.trans hh)
      simp [hcne]
  · rw [if_neg h]
    cases hl : lookupCol t nm2 with
    | some c => exact lookupCol_append_some _ hl
    | none =>
      rw [lookupCol_append_none _ hl]
      show (if nm = nm2 then _ else lookupCol [] nm2) = none
      rw [if_neg (fun hh => hne hh.symm)]
      rfl

theorem colNames_setCol_mem {t : Table} {nm : String} (d : ColData)
    (h : nm ∈ colNames t) : colNames (setCol t nm d) = colNames t := by
  unfold setCol
  rw [if_pos h]
  apply colNames_map_pres
  intro c
  by_cases hc : c.name = nm <;> simp [hc]

theorem TableWF_setCol {t : Table} {n : Nat} {nm : String} {d : ColData}
    (hwf : TableWF t n) (hd : d.dataLen = n) : TableWF (setCol t nm d) n := by
  unfold setCol
  by_cases h : nm ∈ colNames t
  · rw [if_pos h]
    intro c hc
    rcases List.mem_map.mp hc with ⟨c0, h0, rfl⟩
    by_cases hc0 : c0.name = nm
    · simp [hc0, hd]
    · simp [hc0]
      exact hwf c0 h0
  · rw [if_neg h]
    intro c hc
    rcases List.mem_append.mp hc with hm | hm
    · exact hwf c hm
    · simp at hm
      subst hm
      simp [hd]

/-! ## Claim C6 -/

/-- C6: `add_sources` with a table whose columns match the master
table's appends its M rows below the N original rows - every shared
column of the result is the original data followed by the new data, with
the masks concatenated likewise - all columns end up with N + M cells,
and the `_index` column is reassigned to the dense, unmasked row numbers
0..N+M-1. -/
theorem add_sources_dense_index (t s : Table) (n m : Nat)
    (hwt : TableWF t n) (hws : TableWF s m) (hne : t ≠ [])
    (hnames : colNames s = colNames t)
    (hk : ∀ c ∈ t, ∀ c2 ∈ s, c2.name = c.name → c.data.kind = c2.data.kind) :
    ∃ r, addSourcesE t [s] = .ok r ∧ TableWF r (n + m) ∧
      lookupCol r "_index" = some ⟨"_index",
        .numD ((List.range (n + m)).map (fun (i : Nat) => PVal.num (i : ℚ))),
        List.replicate (n + m) false⟩ ∧
      (∀ nm2 c c2, nm2 ≠ "_index" → lookupCol t nm2 = some c →
        lookupCol s nm2 = some c2 →
        ∃ d2, stackData c.data c2.data = some d2 ∧
          lookupCol r nm2 = some ⟨nm2, d2, c.mask ++ c2.mask⟩) := by
  have hsne : s ≠ [] := by
    intro hs
    subst hs
    have : colNames t = [] := hnames.symm
    rw [colNames, List.map_eq_nil_iff] at this
    exact hne this
  have hnrs : nrows s = m := nrows_of_WF hws hsne
  have hk2 : ∀ c ∈ t, ∀ c2, lookupCol s c.name = some c2 → c.data.kind = c2.data.kind :=
    fun c hc c2 hl => hk c hc c2 (lookupCol_mem hl).1 (lookupCol_mem hl).2
  have hv := vstackE_ok (t := t) (s := s) hk2
  have hextras : s.filter (fun c2 => decide (c2.name ∉ colNames t)) = [] := by
    rw [List.filter_eq_nil_iff]
    intro c2 hc2
    have : c2.name ∈ colNames t := hnames ▸ List.mem_map_of_mem Col.name hc2
    simp [this]
  rw [hextras, hnrs] at hv
  simp only [List.map_nil, List.append_nil] at hv
  set V := t.map (vstackCol s m) with hV
  have haddr : addSourcesE t [s] = .ok (setIndexDense V) := by
    unfold addSourcesE foldME
    simp [hv, Except.bind, foldME]
  have hWFV : TableWF V (n + m) := by
    intro c hc
    rcases List.mem_map.mp hc with ⟨c0, h0, rfl⟩
    constructor
    · rw [vstackCol_dataLen hws (hk2 c0 h0), (hwt c0 h0).1]
    · rw [vstackCol_maskLen hws, (hwt c0 h0).2]
  have hVne : V ≠ [] := by
    rw [hV]
    intro hmap
    rw [List.map_eq_nil_iff] at hmap
    exact hne hmap
  have hnV : nrows V = n + m := nrows_of_WF hWFV hVne
  have hdlen : (ColData.numD ((List.range (n + m)).map (fun (i : Nat) => PVal.num (i : ℚ)))).dataLen
      = n + m := by
    simp only [ColData.dataLen, List.length_map, List.length_range]
  refine ⟨setIndexDense V, haddr, ?_, ?_, ?_⟩
  · unfold setIndexDense
    rw [hnV]
    exact TableWF_setCol hWFV hdlen
  · unfold setIndexDense
    rw [hnV]
    have hself := lookupCol_setCol_self V "_index"
      (.numD ((List.range (n + m)).map (fun (i : Nat) => PVal.num (i : ℚ))))
    rw [hdlen] at hself
    exact hself
  · intro nm2 c c2 hnm2 hlt hls
    have hmemt : c ∈ t := (lookupCol_mem hlt).1
    have hcn : c.name = nm2 := (lookupCol_mem hlt).2
    have hl2 : lookupCol s c.name = some c2 := by rw [hcn]; exact hls
    rcases stackData_some_of_kind (hk2 c hmemt c2 hl2) with ⟨d2, hd2⟩
    refine ⟨d2, hd2, ?_⟩
    have hstack : vstackCol s m c = ⟨nm2, d2, c.mask ++ c2.mask⟩ := by
      unfold vstackCol
      rw [hl2]
      simp only [hd2, Option.getD_some, hcn]
    unfold setIndexDense
    rw [lookupCol_setCol_other _ _ _ _ hnm2, hV,
      lookupCol_map (vstackCol_name s m), hlt, Option.map_some', hstack]

/-- Witness for C6 on concrete one-row tables with matching columns. -/
theorem add_sources_dense_index_witness :
    ∃ r, addSourcesE T6a [T6b] = .ok r ∧ TableWF r (1 + 1) ∧
      lookupCol r "_index" = some ⟨"_index",
        .numD ((List.range (1 + 1)).map (fun (i : Nat) => PVal.num (i : ℚ))),
        List.replicate (1 + 1) false⟩ ∧
      (∀ nm2 c c2, nm2 ≠ "_index" → lookupCol T6a nm2 = some c →
        lookupCol T6b nm2 = some c2 →
        ∃ d2, stackData c.data c2.data = some d2 ∧
          lookupCol r nm2 = some ⟨nm2, d2, c.mask ++ c2.mask⟩) :=
  add_sources_dense_index T6a T6b 1 1 (by with_unfolding_all decide)
    (by with_unfolding_all decide) (by with_unfolding_all decide)
    (by with_unfolding_all decide) (by with_unfolding_all decide)

/-! ## Claim C9 -/

/-- C9 (amended): `add_sources` with a table whose column set differs
from the master table's does not raise: `vstack`'s default outer join
completes the stack with the union of the column sets - the master's
columns first, then the new table's extra columns - filling the cells a
side is missing with masked filler cells, and `_index` is reassigned;
only two same-named columns of incompatible dtype raise. -/
theorem add_sources_outer_join (t s : Table) (n m : Nat)
    (hwt : TableWF t n) (hws : TableWF s m) (hne : t ≠ []) (hsne : s ≠ [])
    (hnd : (colNames t).Nodup) (hnds : (colNames s).Nodup)
    (hind : "_index" ∈ colNames t)
    (hk : ∀ c ∈ t, ∀ c2 ∈ s, c2.name = c.name → c.data.kind = c2.data.kind) :
    ∃ r, addSourcesE t [s] = .ok r ∧
      colNames r = colNames t ++
        (colNames s).filter (fun nm => decide (nm ∉ colNames t)) ∧
      TableWF r (n + m) ∧
      (∀ c ∈ t, c.name ∉ colNames s → c.name ≠ "_index" →
        lookupCol r c.name = some ⟨c.name, c.data.extendBack m,
          c.mask ++ List.replicate m true⟩) ∧
      (∀ c2 ∈ s, c2.name ∉ colNames t →
        lookupCol r c2.name = some ⟨c2.name, c2.data.extendFront n,
          List.replicate n true ++ c2.mask⟩) := by
  have hnrs : nrows s = m := nrows_of_WF hws hsne
  have hnrt : nrows t = n := nrows_of_WF hwt hne
  have hk2 : ∀ c ∈ t, ∀ c2, lookupCol s c.name = some c2 → c.data.kind = c2.data.kind :=
    fun c hc c2 hl => hk c hc c2 (lookupCol_mem hl).1 (lookupCol_mem hl).2
  have hv := vstackE_ok (t := t) (s := s) hk2
  rw [hnrs, hnrt] at hv
  set EX := (s.filter (fun c2 => decide (c2.name ∉ colNames t))).map
    (fun c2 => (⟨c2.name, c2.data.extendFront n,
      List.replicate n true ++ c2.mask⟩ : Col)) with hEX
  set V := t.map (vstackCol s m) ++ EX with hV
  have haddr : addSourcesE t [s] = .ok (setIndexDense V) := by
    unfold addSourcesE foldME
    simp [hv, Except.bind, foldME]
  have hWFV : TableWF V (n + m) := by
    intro c hc
    rcases List.mem_append.mp hc with hm1 | hm2
    · rcases List.mem_map.mp hm1 with ⟨c0, h0, rfl⟩
      exact ⟨by rw [vstackCol_dataLen hws (hk2 c0 h0), (hwt c0 h0).1],
             by rw [vstackCol_maskLen hws, (hwt c0 h0).2]⟩
    · rw [hEX] at hm2
      rcases List.mem_map.mp hm2 with ⟨c2, h2, rfl⟩
      have h2s : c2 ∈ s := (List.mem_filter.mp h2).1
      constructor
      · rw [extendFront_dataLen, (hws c2 h2s).1]
      · simp [(hws c2 h2s).2]
  have hVne : V ≠ [] := by
    rw [hV]
    intro hh
    rcases List.append_eq_nil.mp hh with ⟨h1, _⟩
    exact hne (List.map_eq_nil_iff.mp h1)
  have hnV : nrows V = n + m := nrows_of_WF hWFV hVne
  have hwname : ∀ c3 : Col, ((fun c2 : Col => (⟨c2.name, c2.data.extendFront n,
      List.replicate n true ++ c2.mask⟩ : Col)) c3).name = c3.name := fun c3 => rfl
  have hnamesV : colNames V = colNames t ++
      (colNames s).filter (fun nm => decide (nm ∉ colNames t)) := by
    rw [hV, colNames_append]
    congr 1
    · exact colNames_map_pres (vstackCol_name s m) t
    · rw [hEX, colNames_map_pres hwname]
      exact map_filter_name s (fun nm => decide (nm ∉ colNames t))
  have hindV : "_index" ∈ colNames V := by
    rw [hnamesV]
    exact List.mem_append_left _ hind
  have hdlen : (ColData.numD ((List.range (n + m)).map
      (fun (i : Nat) => PVal.num (i : ℚ)))).dataLen = n + m := by
    simp only [ColData.dataLen, List.length_map, List.length_range]
  refine ⟨setIndexDense V, haddr, ?_, ?_, ?_, ?_⟩
  · unfold setIndexDense
    rw [colNames_setCol_mem _ hindV, hnamesV]
  · unfold setIndexDense
    rw [hnV]
    exact TableWF_setCol hWFV hdlen
  · intro c hc hnotins hnotidx
    unfold setIndexDense
    rw [lookupCol_setCol_other _ _ _ _ hnotidx, hV]
    have hl1 : lookupCol (t.map (vstackCol s m)) c.name = some (vstackCol s m c) := by
      rw [lookupCol_map (vstackCol_name s m), lookupCol_of_mem_nodup hc hnd,
        Option.map_some']
    rw [lookupCol_append_some _ hl1]
    have hthis : vstackCol s m c = ⟨c.name, c.data.extendBack m,
        c.mask ++ List.replicate m true⟩ := by
      unfold vstackCol
      rw [(lookupCol_eq_none_iff s c.name).mpr hnotins]
    rw [hthis]
  · intro c2 hc2 hnotint
    have hc2idx : c2.name ≠ "_index" := fun heq => hnotint (heq ▸ hind)
    unfold setIndexDense
    rw [lookupCol_setCol_other _ _ _ _ hc2idx, hV]
    have hl0 : lookupCol (t.map (vstackCol s m)) c2.name = none := by
      rw [lookupCol_eq_none_iff, colNames_map_pres (vstackCol_name s m)]
      exact hnotint
    rw [lookupCol_append_none _ hl0, hEX, lookupCol_map hwname]
    have hmemf : c2 ∈ s.filter (fun c3 => decide (c3.name ∉ colNames t)) :=
      List.mem_filter.mpr ⟨hc2, by simp [hnotint]⟩
    have hndf : (colNames (s.filter (fun c3 => decide (c3.name ∉ colNames t)))).Nodup :=
      List.Nodup.sublist (List.Sublist.map _ (List.filter_sublist _)) hnds
    rw [lookupCol_of_mem_nodup hmemf hndf, Option.map_some']

/-- Witness for the amended C9: stacking a table with a foreign column
onto the concrete master completes as an outer join. -/
theorem add_sources_outer_join_witness :
    ∃ r, addSourcesE T6a [S9] = .ok r ∧
      colNames r = colNames T6a ++
        (colNames S9).filter (fun nm => decide (nm ∉ colNames T6a)) ∧
      TableWF r (1 + 1) ∧
      (∀ c ∈ T6a, c.name ∉ colNames S9 → c.name ≠ "_index" →
        lookupCol r c.name = some ⟨c.name, c.data.extendBack 1,
          c.mask ++ List.replicate 1 true⟩) ∧
      (∀ c2 ∈ S9, c2.name ∉ colNames T6a →
        lookupCol r c2.name = some ⟨c2.name, c2.data.extendFront 1,
          List.replicate 1 true ++ c2.mask⟩) :=
  add_sources_outer_join T6a S9 1 1 (by with_unfolding_all decide)
    (by with_unfolding_all decide) (by with_unfolding_all decide)
    (by with_unfolding_all decide) (by with_unfolding_all decide)
    (by with_unfolding_all decide) (by with_unfolding_all decide)
    (by with_unfolding_all decide)

/-- Counterexample to C9 as stated: stacking a table whose column set
differs from the master's completes without an error - producing a table
with a different schema (an extra `foo` column, masked filler cells) -
instead of failing immediately. -/
theorem add_sources_mismatched_completes :
    addSourcesE T6a [S9] = .ok R9 ∧ colNames R9 ≠ colNames T6a := by
  with_unfolding_all decide

/-! ## Claim C10 -/

theorem lookup_removeColsCaught_other {ns : List String} {t : Table} {nm : String}
    (hnm : nm ∉ ns) : lookupCol (removeColsCaught ns t) nm = lookupCol t nm := by
  unfold removeColsCaught
  by_cases hcond : ∀ n2 ∈ ns, n2 ∈ colNames t
  · rw [if_pos hcond]
    unfold removeAll
    apply lookupCol_filter
    intro c _ hname
    simp [hname, hnm]
  · rw [if_neg hcond]

/-- C10: a completed `photometer` call on the default full-table catalog
leaves the row count unchanged, and every column other than the five
statistic columns keeps its stored data - in particular the `_name`,
`_index` and `rejected` columns' values are untouched: the only table
modifications are the removal/re-addition of the five
`{freq_id}_{aperture}_{stat}` columns and mask updates. -/
theorem photometer_frame_effect (rs : RSObj) (ap : String) (t t1 : Table) (n : Nat)
    (hwf : TableWF t n) (hlen : (rs.pixFn ap).length = n)
    (h : photometer [rs] [ap] t = .ok t1) :
    TableWF t1 n ∧ nrows t1 = n ∧
    colNames t1 = colNames (removeColsCaught (statNames rs.freq_id ap) t) ++
      statNames rs.freq_id ap ∧
    (∀ nm, nm ∉ statNames rs.freq_id ap →
      (lookupCol t1 nm).map Col.data = (lookupCol t nm).map Col.data) := by
  rw [photometer_single] at h
  have hwf1 : TableWF t1 n := photometerStep_WF hwf hlen h
  rcases photometerStep_ok_elim h with ⟨peaks, npixs, hpk, hnp, hne, hok, ht1⟩
  set ns := statNames rs.freq_id ap with hns
  set R := removeColsCaught ns t with hR
  set C := statCols rs.freq_id ap rs.ppbeam rs.rmsFn (rs.pixFn ap) peaks npixs with hC
  have hCnames : colNames C = ns := statCols_names _ _ _ _ _ _ _
  have ht1ne : t1 ≠ [] := by
    have hlen1 : t1.length = R.length + C.length := by
      rw [ht1]
      simp [remaskTable]
    have hC5 : C.length = 5 := rfl
    intro hnil
    rw [hnil] at hlen1
    simp [hC5] at hlen1
  refine ⟨hwf1, nrows_of_WF hwf1 ht1ne, ?_, ?_⟩
  · rw [ht1, colNames_remask, colNames_append, hCnames]
  · intro nm hnm
    have hRt : lookupCol R nm = lookupCol t nm := lookup_removeColsCaught_other hnm
    rw [ht1]
    unfold remaskTable
    rw [lookupCol_map remaskCol_name]
    cases hRl : lookupCol R nm with
    | some c =>
      rw [lookupCol_append_some _ hRl, ← hRt, hRl]
      simp [remaskCol_data]
    | none =>
      rw [lookupCol_append_none _ hRl]
      have hCnone : lookupCol C nm = none := by
        rw [lookupCol_eq_none_iff, hCnames]
        exact hnm
      rw [hCnone, ← hRt, hRl]
      rfl

/-- Witness for C10 at the concrete catalog of the C1 witness. -/
theorem photometer_frame_effect_witness :
    TableWF T1W 1 ∧ nrows T1W = 1 ∧
    colNames T1W = colNames (removeColsCaught (statNames rsW.freq_id "ap") T0W) ++
      statNames rsW.freq_id "ap" ∧
    (∀ nm, nm ∉ statNames rsW.freq_id "ap" →
      (lookupCol T1W nm).map Col.data = (lookupCol T0W nm).map Col.data) :=
  photometer_frame_effect rsW "ap" T0W T1W 1 (by with_unfolding_all decide)
    (by with_unfolding_all decide) (by with_unfolding_all decide)

/-! ## Claim C3 -/

theorem mem_ffIndexSet (t : Table) (cols : List String) (i : ℕ) :
    i ∈ ffIndexSet t cols ↔
      (i < nrows t ∧ (cols.any (fun c => colMaskAt t c i)) = false ∧
       ¬ numValAt t "rejected" i = some (.num 1)) := by
  unfold ffIndexSet ffMaskedSet ffRejSet
  simp only [Finset.mem_sdiff, Finset.mem_union, Finset.mem_inter, Finset.mem_filter,
    Finset.mem_range]
  constructor
  · rintro ⟨h1, h2⟩
    have hlt : i < nrows t := by
      rcases h1 with h | h | h
      · exact h
      · exact h.1
      · exact h.1
    refine ⟨hlt, ?_, ?_⟩
    · cases hb : cols.any (fun c => colMaskAt t c i) with
      | false => rfl
      | true => exact absurd ⟨hlt, Or.inl ⟨hlt, hb⟩⟩ h2
    · intro hx
      exact h2 ⟨hlt, Or.inr ⟨hlt, hx⟩⟩
  · rintro ⟨h1, h2, h3⟩
    refine ⟨Or.inl h1, ?_⟩
    rintro ⟨-, hbad | hbad⟩
    · rw [hbad.2] at h2
      exact Bool.noConfusion h2
    · exact h3 hbad.2

/-- C3: a row index is selected by the `ffplot` comparison filter - and
hence appears in `ffCatalog`, from which the flux, error and label
series are read - exactly when the row exists, its `rejected` flag is 0,
and none of the required per-aperture flux/rms columns (for the two
frequency labels, with ellipse and annulus force-included) is masked at
that row; every row with `rejected == 1` or with a masked required
column is excluded. -/
theorem ffplot_row_filter (t : Table) (f1 f2 : String) (aps : List String) (pk : Bool)
    (i : ℕ)
    (_hcols : ∀ c ∈ requiredCols f1 f2 aps pk, c ∈ colNames t)
    (hrej : ∀ j, j < nrows t →
      numValAt t "rejected" j = some (.num 0) ∨ numValAt t "rejected" j = some (.num 1)) :
    i ∈ ffIndex t (requiredCols f1 f2 aps pk) ↔
      (i < nrows t ∧ numValAt t "rejected" i = some (.num 0) ∧
       ∀ c ∈ requiredCols f1 f2 aps pk, colMaskAt t c i = false) := by
  unfold ffIndex
  rw [List.mem_filter]
  simp only [List.mem_range, decide_eq_true_eq]
  rw [mem_ffIndexSet]
  constructor
  · rintro ⟨h1, -, hany, hnotrej⟩
    refine ⟨h1, ?_, ?_⟩
    · rcases hrej i h1 with h0 | h0
      · exact h0
      · exact absurd h0 hnotrej
    · intro c hc
      rcases hb : colMaskAt t c i with _ | _
      · rfl
      · exfalso
        have : (requiredCols f1 f2 aps pk).any (fun c2 => colMaskAt t c2 i) = true :=
          List.any_eq_true.mpr ⟨c, hc, hb⟩
        rw [this] at hany
        exact Bool.noConfusion hany
  · rintro ⟨h1, hrej0, hmask⟩
    refine ⟨h1, h1, ?_, ?_⟩
    · rw [List.any_eq_false]
      intro c hc
      rw [hmask c hc]
      exact Bool.noConfusion
    · intro hbad
      rw [hrej0] at hbad
      have : (PVal.num 0) = (PVal.num 1) := by
        injection hbad
      rw [PVal.num.injEq] at this
      exact zero_ne_one this

/-- Witness for C3 at a concrete three-row catalog (row 0 clean, row 1
rejected, row 2 masked in a required column). -/
theorem ffplot_row_filter_witness :
    0 ∈ ffIndex TFf (requiredCols "f1" "f2" [] false) ↔
      (0 < nrows TFf ∧ numValAt TFf "rejected" 0 = some (.num 0) ∧
       ∀ c ∈ requiredCols "f1" "f2" [] false, colMaskAt TFf c 0 = false) :=
  ffplot_row_filter TFf "f1" "f2" [] false 0 (by with_unfolding_all decide)
    (by with_unfolding_all decide)

end Dendrocat
